import Mathlib

/-!
Shallow embedding of the ISO-8601 time-value codec of
`viresclient/time_util.py` (module-level regular expressions
`RE_ISO_8601_DATETIME_LONG`, `RE_ISO_8601_DATETIME_SHORT`,
`RE_ISO_8601_DURATION`, and the functions `to_utc_naive`,
`parse_datetime`, `parse_date`, `parse_duration`, `encode_duration`).

Modelling conventions:
- Python strings are Lean `String`s; regex matching is embedded as
  deterministic recursive matchers over `List Char` that are extensionally
  equal to the source patterns (each pattern in the source is anchored and
  built from fixed-width digit fields and one-letter designators, so greedy
  committed matching with local fallback coincides with backtracking
  regex matching).
- Python `float` arithmetic on the decimal literals captured by the
  duration grammar is modelled as exact arithmetic: executably by the
  scaled-integer type `Dec` below, and at specification level by `Rat`,
  with bridging lemmas between the two.
- Python `datetime.timedelta` is modelled as its total signed length in
  microseconds (`Int`); the constructor normalisation rounds fractional
  microseconds half to even and raises `OverflowError` when the
  normalised day count leaves `[-999999999, 999999999]`, as CPython does.
- Python `datetime.datetime` is modelled as the `DateTime` structure below;
  the `TimeZone` objects constructed by the module carry a fixed UTC offset
  in whole minutes, modelled as `Option Int` (the display label is never
  observable).  `datetime.astimezone` requires the offset to be strictly
  within 24 hours and raises `OverflowError` when the shifted value leaves
  the year range 1..9999, as CPython does.
-/

set_option maxRecDepth 10000

/-! ## Digit and number utilities -/

/-- Numeric value of a decimal digit character. -/
def digVal (c : Char) : Nat := c.toNat - 48

/-- Value of a string of decimal digits, as Python `int` reads it
(leading zeros permitted). -/
def natOfDigits (l : List Char) : Nat := l.foldl (fun a c => 10 * a + digVal c) 0

/-- Python `int` on a digit string with an optional leading sign,
as used for the time-zone offset fields. -/
def intOfChars : List Char → Int
  | '-' :: r => -(natOfDigits r : Int)
  | '+' :: r => (natOfDigits r : Int)
  | l => (natOfDigits l : Int)

/-- Longest prefix of decimal digits together with the rest
(the behaviour of a greedy anchored run of the regex class `\d`). -/
def spanDigits : List Char → List Char × List Char
  | [] => ([], [])
  | c :: r =>
    if c.isDigit then
      let p := spanDigits r
      (c :: p.1, p.2)
    else ([], c :: r)

/-- Exactly `n` decimal digits, or failure (`\d{n,n}` in the source patterns). -/
def takeDigits : Nat → List Char → Option (List Char × List Char)
  | 0, l => some ([], l)
  | _ + 1, [] => none
  | n + 1, c :: r =>
    if c.isDigit then
      match takeDigits n r with
      | some (ds, rest) => some (c :: ds, rest)
      | none => none
    else none

/-- At most `n` decimal digits, greedily (`\d{0,n}` in the source patterns). -/
def takeUpTo : Nat → List Char → List Char × List Char
  | 0, l => ([], l)
  | _ + 1, [] => ([], [])
  | n + 1, c :: r =>
    if c.isDigit then
      let p := takeUpTo n r
      (c :: p.1, p.2)
    else ([], c :: r)

/-! ## Exact decimal numbers

The numbers captured by the duration grammar are decimal literals
`\d+(\.\d+)?`; the source converts them with `float` and combines them by
additions and multiplications with integer constants.  All these
operations are exact on decimal fractions, so they are modelled by the
scaled-integer representation `Dec` (value = `num / 10 ^ exp`), which the
kernel can evaluate, together with its interpretation `Dec.toRat` into `ℚ`
used by specification statements. -/

/-- Exact decimal number: the rational `num / 10 ^ exp`. -/
structure Dec where
  num : Int
  exp : Nat
deriving DecidableEq

/-- Rational value of a `Dec`. -/
def Dec.toRat (a : Dec) : ℚ := (a.num : ℚ) / 10 ^ a.exp

/-- Exact addition of decimal numbers. -/
def Dec.add (a b : Dec) : Dec :=
  ⟨a.num * 10 ^ (max a.exp b.exp - a.exp) + b.num * 10 ^ (max a.exp b.exp - b.exp),
   max a.exp b.exp⟩

/-- Exact multiplication of a decimal number by an integer constant. -/
def Dec.scale (k : Int) (a : Dec) : Dec := ⟨k * a.num, a.exp⟩

/-- Exact decimal value of a number token `\d+(\.\d+)?`, modelling Python
`float` conversion of the captured group. -/
def decOfNumStr (l : List Char) : Dec :=
  match spanDigits l with
  | (ds, rest) =>
    match rest with
    | '.' :: fs => ⟨natOfDigits ds * 10 ^ fs.length + natOfDigits fs, fs.length⟩
    | _ => ⟨natOfDigits ds, 0⟩

/-- Value of an optional captured group, modelling `float(match[g] or 0)`. -/
def decOfGroup : Option (List Char) → Dec
  | some l => decOfNumStr l
  | none => ⟨0, 0⟩

/-- Rational value of a number token (specification-level counterpart of
`decOfNumStr`). -/
def ratOfNumStr (l : List Char) : ℚ :=
  match spanDigits l with
  | (ds, rest) =>
    match rest with
    | '.' :: fs => (natOfDigits ds : ℚ) + (natOfDigits fs : ℚ) / (10 : ℚ) ^ fs.length
    | _ => (natOfDigits ds : ℚ)

/-- Rational value of an optional captured group (specification-level
counterpart of `decOfGroup`). -/
def ratOfGroup : Option (List Char) → ℚ
  | some l => ratOfNumStr l
  | none => 0

/-! ## The `timedelta` model -/

/-- Round a decimal number to the nearest integer, ties to even — the
rounding CPython applies to fractional microseconds in the `timedelta`
constructor. -/
def Dec.roundHalfEven (a : Dec) : Int :=
  let p : Int := 10 ^ a.exp
  let f := a.num.fdiv p
  let r := a.num.fmod p
  if 2 * r < p then f
  else if p < 2 * r then f + 1
  else if f % 2 = 0 then f else f + 1

/-- Round a rational to the nearest integer, ties to even
(specification-level counterpart of `Dec.roundHalfEven`). -/
def roundHalfEvenQ (q : ℚ) : Int :=
  if q - (⌊q⌋ : ℚ) < 1 / 2 then ⌊q⌋
  else if 1 / 2 < q - (⌊q⌋ : ℚ) then ⌊q⌋ + 1
  else if ⌊q⌋ % 2 = 0 then ⌊q⌋ else ⌊q⌋ + 1

/-- Python `timedelta(days, fsec)`: total length in microseconds, with the
CPython overflow check on the normalised day count. -/
def mkTimedelta (days fsec : Dec) : Except String Int :=
  let total := (Dec.add (Dec.scale 86400000000 days) (Dec.scale 1000000 fsec)).roundHalfEven
  if (total.fdiv 86400000000).natAbs ≤ 999999999 then .ok total
  else .error "OverflowError: days out of range"

/-- Specification-level counterpart of `mkTimedelta` over `ℚ`. -/
def mkTimedeltaQ (days fsec : ℚ) : Except String Int :=
  let total := roundHalfEvenQ (days * 86400000000 + fsec * 1000000)
  if (total.fdiv 86400000000).natAbs ≤ 999999999 then .ok total
  else .error "OverflowError: days out of range"

/-- Normalised day count of a `timedelta` (`value.days` in Python). -/
def tdDays (v : Int) : Int := v.fdiv 86400000000

/-- Normalised second count of a `timedelta` (`value.seconds` in Python,
always in `[0, 86400)`). -/
def tdSeconds (v : Int) : Int := (v.fmod 86400000000).fdiv 1000000

/-- Normalised microsecond count of a `timedelta` (`value.microseconds`
in Python, always in `[0, 1000000)`). -/
def tdMicros (v : Int) : Int := v.fmod 1000000

/-! ## The duration grammar `RE_ISO_8601_DURATION` -/

/-- Captured groups of `RE_ISO_8601_DURATION`. -/
structure DurGroups where
  sign : Option Char
  years : Option (List Char)
  months : Option (List Char)
  days : Option (List Char)
  hours : Option (List Char)
  minutes : Option (List Char)
  seconds : Option (List Char)
deriving DecidableEq

/-- Greedy match of one number token `\d+(\.\d+)?`. -/
def numTok (l : List Char) : Option (List Char × List Char) :=
  match spanDigits l with
  | ([], _) => none
  | (ds, rest) =>
    match rest with
    | '.' :: r2 =>
      match spanDigits r2 with
      | ([], _) => some (ds, rest)
      | (fs, r3) => some (ds ++ '.' :: fs, r3)
    | _ => some (ds, rest)

/-- One optional designator component `(?:(\d+(\.\d+)?)X)?` of the duration
pattern: a number token immediately followed by the designator letter, or
nothing (position unchanged). -/
def numDes (des : Char) (l : List Char) : Option (List Char) × List Char :=
  match numTok l with
  | some (n, r) =>
    match r with
    | c :: r2 => if c = des then (some n, r2) else (none, l)
    | [] => (none, l)
  | none => (none, l)

/-- Optional leading sign `(?P<sign>[+-])?` of the duration pattern. -/
def signSplit (l : List Char) : Option Char × List Char :=
  match l with
  | '+' :: r => (some '+', r)
  | '-' :: r => (some '-', r)
  | _ => (none, l)

/-- The mandatory literal `P` of the duration pattern. -/
def afterP (l : List Char) : Option (List Char) :=
  match l with
  | 'P' :: r => some r
  | _ => none

/-- The optional separator `T?` of the duration pattern. -/
def dropT (l : List Char) : List Char :=
  match l with
  | 'T' :: r => r
  | _ => l

/-- Full anchored match of `RE_ISO_8601_DURATION`. -/
def matchDuration (l : List Char) : Option DurGroups :=
  let s1 := signSplit l
  match afterP s1.2 with
  | none => none
  | some l2 =>
    let y := numDes 'Y' l2
    let mo := numDes 'M' y.2
    let d := numDes 'D' mo.2
    let h := numDes 'H' (dropT d.2)
    let mi := numDes 'M' h.2
    let s := numDes 'S' mi.2
    if s.2 = [] then some ⟨s1.1, y.1, mo.1, d.1, h.1, mi.1, s.1⟩ else none

/-! ## `parse_duration` -/

/-- Input of `parse_duration`: an already-typed `timedelta` value
(pass-through branch of the `isinstance` check) or a string. -/
inductive DurInput where
  | td (t : Int)
  | str (s : String)

/-- Source `parse_duration`: pass an already-typed value through, otherwise
match the duration grammar, combine the components (years as 365 days,
months as 30 days), reject a negative sign, and build the `timedelta`. -/
def parse_duration : DurInput → Except String Int
  | .td t => .ok t
  | .str s =>
    match matchDuration s.data with
    | none => .error "Could not parse ISO 8601 duration."
    | some g =>
      let sign : Int := if g.sign = some '-' then -1 else 1
      let days := Dec.add (Dec.add (decOfGroup g.days) (Dec.scale 30 (decOfGroup g.months)))
        (Dec.scale 365 (decOfGroup g.years))
      let fsec := Dec.add (Dec.add (decOfGroup g.seconds) (Dec.scale 60 (decOfGroup g.minutes)))
        (Dec.scale 3600 (decOfGroup g.hours))
      if sign < 0 then .error "Duration must not be negative!"
      else mkTimedelta days fsec

/-! ## `encode_duration` -/

/-- Decimal digit character for a value below ten. -/
def digitChar (n : Nat) : Char := Char.ofNat (48 + n)

/-- Fuelled decimal rendering of a natural number (most significant digit
first); the fuel is always sufficient when called through `natToChars`. -/
def natChAux : Nat → Nat → List Char
  | 0, _ => []
  | fuel + 1, n =>
    if n < 10 then [digitChar n]
    else natChAux fuel (n / 10) ++ [digitChar (n % 10)]

/-- Canonical decimal rendering of a natural number, as Python `"%d"`. -/
def natToChars (n : Nat) : List Char := natChAux (n + 1) n

/-- Six-digit zero-padded rendering of a microsecond count below 1000000:
the fractional digits produced by Python `"%.6f"` of
`seconds + 1e-6 * microseconds`. -/
def pad6 (n : Nat) : List Char :=
  List.replicate (6 - (natToChars n).length) '0' ++ natToChars n

/-- Source `encode_duration`: a leading sign for a negative value, the `P`,
the day component, `T0S` for the zero value, and the sub-day component with
hours, minutes and (possibly fractional) seconds. -/
def encode_duration (v : Int) : String :=
  let a := if tdDays v < 0 then -v else v
  let d := tdDays a
  let s := (tdSeconds a).toNat
  let us := (tdMicros a).toNat
  let dayPart : List Char :=
    if d ≠ 0 then natToChars d.toNat ++ ['D']
    else if s = 0 ∧ us = 0 then ['T', '0', 'S']
    else []
  let subPart : List Char :=
    if s ≠ 0 ∨ us ≠ 0 then
      ['T']
      ++ (if s / 60 / 60 ≠ 0 then natToChars (s / 60 / 60) ++ ['H'] else [])
      ++ (if s / 60 % 60 ≠ 0 then natToChars (s / 60 % 60) ++ ['M'] else [])
      ++ (if us ≠ 0 then natToChars (s % 60) ++ '.' :: pad6 us ++ ['S']
          else if s % 60 ≠ 0 then natToChars (s % 60) ++ ['S'] else [])
    else []
  String.mk ((if tdDays v < 0 then ['-'] else []) ++ 'P' :: dayPart ++ subPart)

/-! ## The `datetime` model -/

/-- Python `datetime.datetime`: civil fields plus the optional attached
time zone, modelled by its fixed UTC offset in whole minutes. -/
structure DateTime where
  year : Nat
  month : Nat
  day : Nat
  hour : Nat
  minute : Nat
  second : Nat
  microsecond : Nat
  tz : Option Int
deriving DecidableEq

/-- Days since 1970-01-01 of a civil date (proleptic Gregorian calendar,
the arithmetic underlying Python `datetime`). -/
def daysFromCivil (y m d : Int) : Int :=
  let yy := if m ≤ 2 then y - 1 else y
  let era := yy.fdiv 400
  let yoe := yy - era * 400
  let mp := if m ≤ 2 then m + 9 else m - 3
  let doy := (153 * mp + 2).fdiv 5 + d - 1
  let doe := yoe * 365 + yoe.fdiv 4 - yoe.fdiv 100 + doy
  era * 146097 + doe - 719468

/-- Civil date (year, month, day) of a count of days since 1970-01-01. -/
def civilFromDays (z0 : Int) : Int × Int × Int :=
  let z := z0 + 719468
  let era := z.fdiv 146097
  let doe := z - era * 146097
  let yoe := (doe - doe.fdiv 1460 + doe.fdiv 36524 - doe.fdiv 146096).fdiv 365
  let y := yoe + era * 400
  let doy := doe - (365 * yoe + yoe.fdiv 4 - yoe.fdiv 100)
  let mp := (5 * doy + 2).fdiv 153
  let d := doy - (153 * mp + 2).fdiv 5 + 1
  let m := if mp < 10 then mp + 3 else mp - 9
  (if m ≤ 2 then y + 1 else y, m, d)

/-- Microseconds since 1970-01-01T00:00:00 of the civil fields of a
timestamp (ignoring its zone). -/
def toMicros (t : DateTime) : Int :=
  daysFromCivil t.year t.month t.day * 86400000000
    + t.hour * 3600000000 + t.minute * 60000000 + t.second * 1000000 + t.microsecond

/-- Naive timestamp of a count of microseconds since 1970-01-01T00:00:00. -/
def fromMicros (x : Int) : DateTime :=
  let day := x.fdiv 86400000000
  let rem := (x.fmod 86400000000).toNat
  let c := civilFromDays day
  ⟨c.1.toNat, c.2.1.toNat, c.2.2.toNat,
   rem / 3600000000, rem / 60000000 % 60, rem / 1000000 % 60, rem % 1000000, none⟩

/-- Microsecond count of `datetime.min` (0001-01-01T00:00:00). -/
def minDatetimeMicros : Int := daysFromCivil 1 1 1 * 86400000000

/-- Microsecond count of `datetime.max` (9999-12-31T23:59:59.999999). -/
def maxDatetimeMicros : Int := daysFromCivil 9999 12 31 * 86400000000 + 86399999999

/-- Source `to_utc_naive`: a zone-aware timestamp is converted to UTC
(`astimezone(UTC)`, which requires the offset to be strictly within 24
hours and the shifted instant to stay inside the `datetime` range) and the
zone is stripped; a naive timestamp passes through unchanged. -/
def to_utc_naive (t : DateTime) : Except String DateTime :=
  match t.tz with
  | none => .ok t
  | some off =>
    if off.natAbs < 1440 then
      let x := toMicros t - off * 60000000
      if minDatetimeMicros ≤ x ∧ x ≤ maxDatetimeMicros then .ok (fromMicros x)
      else .error "OverflowError: date value out of range"
    else .error "ValueError: offset must be within 24 hours"

/-! ## The date-time grammars -/

/-- Captured groups shared by `RE_ISO_8601_DATETIME_LONG` and
`RE_ISO_8601_DATETIME_SHORT`, in the order destructured by
`parse_datetime`. -/
structure DtGroups where
  year : List Char
  month : List Char
  day : List Char
  hour : Option (List Char)
  minute : Option (List Char)
  sec : Option (List Char)
  usec : Option (List Char)
  tzone : Option (List Char)
  tz_hour : Option (List Char)
  tz_min : Option (List Char)
deriving DecidableEq

/-- Captured groups of the optional time-of-day part of either pattern. -/
structure TimeGs where
  hour : List Char
  minute : List Char
  sec : Option (List Char)
  usec : Option (List Char)
  tzone : Option (List Char)
  tz_hour : Option (List Char)
  tz_min : Option (List Char)
deriving DecidableEq

/-- Optional fraction `(?:[.,](\d{0,6})\d*)?`: a dot or comma, up to six
captured digits, any further digits consumed. -/
def fracPart (l : List Char) : Option (List Char) × List Char :=
  match l with
  | '.' :: r =>
    let p := takeUpTo 6 r
    (some p.1, (spanDigits p.2).2)
  | ',' :: r =>
    let p := takeUpTo 6 r
    (some p.1, (spanDigits p.2).2)
  | _ => (none, l)

/-- Signed zone of the long pattern: `([+-]\d{2,2})(?::(\d{2,2}))?`,
returning (tzone, tz_hour, tz_min) and the rest. -/
def zoneSignedLong (c : Char) (r orig : List Char) :
    (Option (List Char) × Option (List Char) × Option (List Char)) × List Char :=
  match takeDigits 2 r with
  | none => ((none, none, none), orig)
  | some (hd, r1) =>
    match r1 with
    | ':' :: r2 =>
      match takeDigits 2 r2 with
      | some (md, r3) => ((some (c :: hd ++ ':' :: md), some (c :: hd), some md), r3)
      | none => ((some (c :: hd), some (c :: hd), none), r1)
    | _ => ((some (c :: hd), some (c :: hd), none), r1)

/-- Optional zone of the long pattern: `(Z|([+-]\d{2,2})(?::(\d{2,2}))?)?`. -/
def zoneLong (l : List Char) :
    (Option (List Char) × Option (List Char) × Option (List Char)) × List Char :=
  match l with
  | 'Z' :: r => ((some ['Z'], none, none), r)
  | '+' :: r => zoneSignedLong '+' r l
  | '-' :: r => zoneSignedLong '-' r l
  | _ => ((none, none, none), l)

/-- Signed zone of the short pattern: `([+-]\d{2,2})(\d{2,2})?`. -/
def zoneSignedShort (c : Char) (r orig : List Char) :
    (Option (List Char) × Option (List Char) × Option (List Char)) × List Char :=
  match takeDigits 2 r with
  | none => ((none, none, none), orig)
  | some (hd, r1) =>
    match takeDigits 2 r1 with
    | some (md, r2) => ((some (c :: hd ++ md), some (c :: hd), some md), r2)
    | none => ((some (c :: hd), some (c :: hd), none), r1)

/-- Optional zone of the short pattern: `(Z|([+-]\d{2,2})(\d{2,2})?)?`. -/
def zoneShort (l : List Char) :
    (Option (List Char) × Option (List Char) × Option (List Char)) × List Char :=
  match l with
  | 'Z' :: r => ((some ['Z'], none, none), r)
  | '+' :: r => zoneSignedShort '+' r l
  | '-' :: r => zoneSignedShort '-' r l
  | _ => ((none, none, none), l)

/-- Optional seconds of the long pattern: `(?::(\d{2,2})(frac)?)?`. -/
def secLong (l : List Char) : Option (List Char) × Option (List Char) × List Char :=
  match l with
  | ':' :: r =>
    match takeDigits 2 r with
    | some (ss, r1) =>
      let p := fracPart r1
      (some ss, p.1, p.2)
    | none => (none, none, l)
  | _ => (none, none, l)

/-- Optional seconds of the short pattern: `(?:(\d{2,2})(frac)?)?`. -/
def secShort (l : List Char) : Option (List Char) × Option (List Char) × List Char :=
  match takeDigits 2 l with
  | some (ss, r1) =>
    let p := fracPart r1
    (some ss, p.1, p.2)
  | none => (none, none, l)

/-- Time-of-day part of the long pattern:
`T(\d{2,2}):(\d{2,2})(sec)?(zone)?` anchored at the end of input. -/
def timeLong (l : List Char) : Option TimeGs :=
  match l with
  | 'T' :: r =>
    match takeDigits 2 r with
    | none => none
    | some (hh, r1) =>
      match r1 with
      | ':' :: r2 =>
        match takeDigits 2 r2 with
        | none => none
        | some (mm, r3) =>
          let q := secLong r3
          let z := zoneLong q.2.2
          if z.2 = [] then some ⟨hh, mm, q.1, q.2.1, z.1.1, z.1.2.1, z.1.2.2⟩ else none
      | _ => none
  | _ => none

/-- Time-of-day part of the short pattern:
`T(\d{2,2})(\d{2,2})(sec)?(zone)?` anchored at the end of input. -/
def timeShort (l : List Char) : Option TimeGs :=
  match l with
  | 'T' :: r =>
    match takeDigits 2 r with
    | none => none
    | some (hh, r1) =>
      match takeDigits 2 r1 with
      | none => none
      | some (mm, r2) =>
        let q := secShort r2
        let z := zoneShort q.2.2
        if z.2 = [] then some ⟨hh, mm, q.1, q.2.1, z.1.1, z.1.2.1, z.1.2.2⟩ else none
  | _ => none

/-- Full anchored match of `RE_ISO_8601_DATETIME_LONG`:
`(\d{4,4})-(\d{2,2})-(\d{2,2})(time)?`. -/
def matchLong (l : List Char) : Option DtGroups :=
  match takeDigits 4 l with
  | none => none
  | some (yy, r1) =>
    match r1 with
    | '-' :: r2 =>
      match takeDigits 2 r2 with
      | none => none
      | some (mo, r3) =>
        match r3 with
        | '-' :: r4 =>
          match takeDigits 2 r4 with
          | none => none
          | some (dd, r5) =>
            if r5 = [] then some ⟨yy, mo, dd, none, none, none, none, none, none, none⟩
            else
              match timeLong r5 with
              | some tg =>
                some ⟨yy, mo, dd, some tg.hour, some tg.minute, tg.sec, tg.usec,
                  tg.tzone, tg.tz_hour, tg.tz_min⟩
              | none => none
        | _ => none
    | _ => none

/-- Full anchored match of `RE_ISO_8601_DATETIME_SHORT`:
`(\d{4,4})(\d{2,2})(\d{2,2})(time)?`. -/
def matchShort (l : List Char) : Option DtGroups :=
  match takeDigits 4 l with
  | none => none
  | some (yy, r1) =>
    match takeDigits 2 r1 with
    | none => none
    | some (mo, r2) =>
      match takeDigits 2 r2 with
      | none => none
      | some (dd, r3) =>
        if r3 = [] then some ⟨yy, mo, dd, none, none, none, none, none, none, none⟩
        else
          match timeShort r3 with
          | some tg =>
            some ⟨yy, mo, dd, some tg.hour, some tg.minute, tg.sec, tg.usec,
              tg.tzone, tg.tz_hour, tg.tz_min⟩
          | none => none

/-! ## `parse_datetime` -/

/-- Zone resolution of `parse_datetime` (source lines 116-125): literal `Z`
is UTC; a signed offset builds a fixed zone from
`timedelta(hours=int(tz_hour), minutes=int(tz_hour[0] + (tz_min or "0")))`;
no zone indicator attaches the caller-supplied local zone. -/
def resolve_tzone (tzone tz_hour tz_min : Option (List Char)) (tz_local : Option Int) :
    Option Int :=
  match tzone with
  | some z =>
    if z = ['Z'] then some 0
    else
      let th := match tz_hour with
        | some h => h
        | none => []
      let tm := match tz_min with
        | some m => m
        | none => ['0']
      some (60 * intOfChars th + intOfChars (th.take 1 ++ tm))
  | none => tz_local

/-- Whether a year is a Gregorian leap year. -/
def isLeap (y : Nat) : Bool := decide (y % 4 = 0 ∧ (y % 100 ≠ 0 ∨ y % 400 = 0))

/-- Length of a month, as validated by the `datetime` constructor. -/
def daysInMonth (y m : Nat) : Nat :=
  if m = 2 then (if isLeap y then 29 else 28)
  else if m = 4 ∨ m = 6 ∨ m = 9 ∨ m = 11 then 30 else 31

/-- The `datetime(...)` constructor: field range validation of CPython
(year 1..9999, month 1..12, day 1..month length, hour 0..23, minute 0..59,
second 0..59, microsecond 0..999999), then the value. -/
def mkDatetime (year month day hour minute second usec : Nat) (tz : Option Int) :
    Except String DateTime :=
  if 1 ≤ year ∧ year ≤ 9999 ∧ 1 ≤ month ∧ month ≤ 12 ∧ 1 ≤ day ∧ day ≤ daysInMonth year month
      ∧ hour ≤ 23 ∧ minute ≤ 59 ∧ second ≤ 59 ∧ usec ≤ 999999 then
    .ok ⟨year, month, day, hour, minute, second, usec, tz⟩
  else .error "ValueError: invalid datetime field"

/-- Right-pad the captured fraction digits with zeros to six digits:
`((usec or "") + "000000")[:6]`. -/
def padUsec (l : List Char) : List Char := (l ++ List.replicate 6 '0').take 6

/-- Timestamp built by `parse_datetime` from the captured groups of either
pattern, before the final UTC normalisation. -/
def buildFromGroups (g : DtGroups) (tz_local : Option Int) : Except String DateTime :=
  let tz := resolve_tzone g.tzone g.tz_hour g.tz_min tz_local
  mkDatetime (natOfDigits g.year) (natOfDigits g.month) (natOfDigits g.day)
    (natOfDigits (g.hour.getD [])) (natOfDigits (g.minute.getD []))
    (natOfDigits (g.sec.getD [])) (natOfDigits (padUsec (g.usec.getD [])))
    tz

/-- Input of `parse_datetime`: an already-typed timestamp (the
`isinstance(value, datetime)` branch) or a string. -/
inductive TimeInput where
  | dt (t : DateTime)
  | str (s : String)

/-- The timestamp `value` of `parse_datetime` just before its final
`to_utc_naive(value)`: the typed input itself, or the timestamp built from
the first matching pattern (long tried before short). -/
def pre_normal (v : TimeInput) (tz_local : Option Int) : Except String DateTime :=
  match v with
  | .dt t => .ok t
  | .str s =>
    match matchLong s.data with
    | some g => buildFromGroups g tz_local
    | none =>
      match matchShort s.data with
      | some g => buildFromGroups g tz_local
      | none => .error "Invalid date-time input!"

/-- Source `parse_datetime`: match and build (or pass a typed value
through), then normalise to a naive UTC timestamp. -/
def parse_datetime (v : TimeInput) (tz_local : Option Int) : Except String DateTime :=
  match pre_normal v tz_local with
  | .ok t => to_utc_naive t
  | .error e => .error e

/-! ## `parse_date` -/

/-- Python `datetime.date`: a date-only value. -/
structure DateOnly where
  year : Nat
  month : Nat
  day : Nat
deriving DecidableEq

/-- The `.date()` component of a timestamp. -/
def DateTime.date (t : DateTime) : DateOnly := ⟨t.year, t.month, t.day⟩

/-- Input of `parse_date`: an already-typed date-only value (the
`isinstance(value, date) and not isinstance(value, datetime)` branch), a
typed timestamp, or a string. -/
inductive DateInput where
  | d (x : DateOnly)
  | dt (t : DateTime)
  | str (s : String)

/-- Source `parse_date`: a date-only value passes through unchanged;
anything else is delegated to `parse_datetime` (with no local zone) and
reduced to its date component. -/
def parse_date : DateInput → Except String DateOnly
  | .d x => .ok x
  | .dt t => (parse_datetime (.dt t) none).map DateTime.date
  | .str s => (parse_datetime (.str s) none).map DateTime.date

/-! ## Helper lemmas: digits and decimal rendering -/

theorem digVal_digitChar (k : Nat) (h : k < 10) : digVal (digitChar k) = k := by
  interval_cases k <;> decide

theorem isDigit_digitChar (k : Nat) (h : k < 10) : (digitChar k).isDigit = true := by
  interval_cases k <;> decide

theorem natOfDigits_go (l : List Char) :
    ∀ a : Nat, List.foldl (fun x c => 10 * x + digVal c) a l
      = a * 10 ^ l.length + natOfDigits l := by
  induction l with
  | nil => intro a; simp [natOfDigits]
  | cons c r ih =>
    intro a
    have h1 : natOfDigits (c :: r) = digVal c * 10 ^ r.length + natOfDigits r := by
      show List.foldl (fun x c => 10 * x + digVal c) (10 * 0 + digVal c) r = _
      rw [ih (10 * 0 + digVal c)]
      ring_nf
    show List.foldl (fun x c => 10 * x + digVal c) (10 * a + digVal c) r = _
    rw [ih (10 * a + digVal c), h1, List.length_cons]
    ring

theorem natOfDigits_append (a b : List Char) :
    natOfDigits (a ++ b) = natOfDigits a * 10 ^ b.length + natOfDigits b := by
  unfold natOfDigits
  rw [List.foldl_append]
  exact natOfDigits_go b _

theorem natChAux_spec : ∀ fuel n, n < fuel →
    natChAux fuel n ≠ [] ∧ (∀ c ∈ natChAux fuel n, c.isDigit = true)
      ∧ natOfDigits (natChAux fuel n) = n := by
  intro fuel
  induction fuel with
  | zero => intro n hn; omega
  | succ fuel ih =>
    intro n hn
    by_cases h10 : n < 10
    · refine ⟨by simp [natChAux, h10], ?_, ?_⟩
      · intro c hc
        simp only [natChAux, if_pos h10, List.mem_singleton] at hc
        exact hc ▸ isDigit_digitChar n h10
      · simp only [natChAux, if_pos h10]
        show natOfDigits [digitChar n] = n
        simp [natOfDigits, digVal_digitChar n h10]
    · have hdiv : n / 10 < fuel := by
        have : n / 10 < n := Nat.div_lt_self (by omega) (by omega)
        omega
      obtain ⟨ihne, ihdig, ihval⟩ := ih (n / 10) hdiv
      have hmod : n % 10 < 10 := Nat.mod_lt _ (by omega)
      refine ⟨?_, ?_, ?_⟩
      · simp [natChAux, h10]
      · intro c hc
        simp only [natChAux, if_neg h10, List.mem_append, List.mem_singleton] at hc
        rcases hc with hc | hc
        · exact ihdig c hc
        · exact hc ▸ isDigit_digitChar _ hmod
      · simp only [natChAux, if_neg h10]
        rw [natOfDigits_append, ihval]
        have : natOfDigits [digitChar (n % 10)] = n % 10 := by
          simp [natOfDigits, digVal_digitChar _ hmod]
        rw [this]
        simp only [List.length_singleton, pow_one]
        omega

theorem natToChars_ne_nil (n : Nat) : natToChars n ≠ [] :=
  (natChAux_spec (n + 1) n (Nat.lt_succ_self n)).1

theorem natToChars_digits (n : Nat) : ∀ c ∈ natToChars n, c.isDigit = true :=
  (natChAux_spec (n + 1) n (Nat.lt_succ_self n)).2.1

theorem natOfDigits_natToChars (n : Nat) : natOfDigits (natToChars n) = n :=
  (natChAux_spec (n + 1) n (Nat.lt_succ_self n)).2.2

theorem natChAux_length : ∀ fuel n k, n < fuel → n < 10 ^ k → 1 ≤ k →
    (natChAux fuel n).length ≤ k := by
  intro fuel
  induction fuel with
  | zero => intro n k hn; omega
  | succ fuel ih =>
    intro n k hn hk h1
    by_cases h10 : n < 10
    · simpa [natChAux, h10] using h1
    · have hdiv : n / 10 < fuel := by
        have : n / 10 < n := Nat.div_lt_self (by omega) (by omega)
        omega
      have hk2 : 2 ≤ k := by
        by_contra hcon
        have : k = 1 := by omega
        subst this
        simp [pow_one] at hk
        omega
      have hdivk : n / 10 < 10 ^ (k - 1) := by
        have hpow : 10 ^ k = 10 ^ (k - 1) * 10 := by
          rw [← pow_succ]
          congr 1
          omega
        rw [Nat.div_lt_iff_lt_mul (by omega)]
        omega
      have := ih (n / 10) (k - 1) hdiv hdivk (by omega)
      simp only [natChAux, if_neg h10, List.length_append, List.length_singleton]
      omega

theorem natToChars_length_le (n k : Nat) (hk : n < 10 ^ k) (h1 : 1 ≤ k) :
    (natToChars n).length ≤ k :=
  natChAux_length (n + 1) n k (Nat.lt_succ_self n) hk h1

theorem pad6_length (n : Nat) (h : n < 1000000) : (pad6 n).length = 6 := by
  have hle : (natToChars n).length ≤ 6 := natToChars_length_le n 6 (by norm_num; omega) (by norm_num)
  simp only [pad6, List.length_append, List.length_replicate]
  omega

theorem pad6_digits (n : Nat) : ∀ c ∈ pad6 n, c.isDigit = true := by
  intro c hc
  simp only [pad6, List.mem_append, List.mem_replicate] at hc
  rcases hc with hc | hc
  · rw [hc.2]; decide
  · exact natToChars_digits n c hc

/-! ## Helper lemmas: the duration matcher on token families -/

/-- Shape hypothesis for a number token split into integer digits and an
optional fractional digit list. -/
def NumShape (ds : List Char) (fr : Option (List Char)) : Prop :=
  ds ≠ [] ∧ (∀ c ∈ ds, c.isDigit = true) ∧
    match fr with
    | some f => f ≠ [] ∧ ∀ c ∈ f, c.isDigit = true
    | none => True

/-- Text of a number token with integer digits `ds` and optional
fractional digits `fr`. -/
def numChars (ds : List Char) (fr : Option (List Char)) : List Char :=
  ds ++ (match fr with
    | some f => '.' :: f
    | none => [])

theorem spanDigits_append (ds r : List Char) (hds : ∀ c ∈ ds, c.isDigit = true)
    (hr : ∀ c, r.head? = some c → c.isDigit = false) :
    spanDigits (ds ++ r) = (ds, r) := by
  induction ds with
  | nil =>
    cases r with
    | nil => rfl
    | cons c r2 =>
      have := hr c rfl
      simp [spanDigits, this]
  | cons d ds2 ih =>
    have hd : d.isDigit = true := hds d (List.mem_cons_self d ds2)
    have ih2 := ih (fun c hc => hds c (List.mem_cons_of_mem d hc))
    simp [spanDigits, hd, ih2]

theorem numTok_none_of_head (l : List Char)
    (h : ∀ c, l.head? = some c → c.isDigit = false) : numTok l = none := by
  cases l with
  | nil => rfl
  | cons c r =>
    have := h c rfl
    simp [numTok, spanDigits, this]

theorem numTok_numChars (ds : List Char) (fr : Option (List Char)) (r : List Char)
    (h : NumShape ds fr)
    (hr : ∀ c, r.head? = some c → c.isDigit = false ∧ c ≠ '.') :
    numTok (numChars ds fr ++ r) = some (numChars ds fr, r) := by
  obtain ⟨hne, hdig, hfr⟩ := h
  obtain ⟨d0, ds0, rfl⟩ : ∃ d0 ds0, ds = d0 :: ds0 := by
    cases ds with
    | nil => exact absurd rfl hne
    | cons a b => exact ⟨a, b, rfl⟩
  cases fr with
  | none =>
    have hsp : spanDigits ((d0 :: ds0) ++ r) = (d0 :: ds0, r) :=
      spanDigits_append _ _ hdig (fun c hc => (hr c hc).1)
    simp only [numChars] at *
    simp only [List.append_nil]
    rw [numTok, hsp]
    cases r with
    | nil => rfl
    | cons c r2 =>
      have hcdot : c ≠ '.' := (hr c rfl).2
      simp [hcdot]
  | some f =>
    obtain ⟨hfne, hfdig⟩ := hfr
    have hsp1 : spanDigits ((d0 :: ds0) ++ ('.' :: (f ++ r))) = (d0 :: ds0, '.' :: (f ++ r)) :=
      spanDigits_append _ _ hdig (fun c hc => by
        simp only [List.head?] at hc
        cases hc
        decide)
    have hsp2 : spanDigits (f ++ r) = (f, r) :=
      spanDigits_append _ _ hfdig (fun c hc => (hr c hc).1)
    obtain ⟨f0, fs0, rfl⟩ : ∃ f0 fs0, f = f0 :: fs0 := by
      cases f with
      | nil => exact absurd rfl hfne
      | cons a b => exact ⟨a, b, rfl⟩
    simp only [numChars]
    have harr : ((d0 :: ds0) ++ '.' :: (f0 :: fs0)) ++ r
        = (d0 :: ds0) ++ ('.' :: ((f0 :: fs0) ++ r)) := by
      simp [List.append_assoc]
    rw [harr, numTok, hsp1]
    have hsp2b : spanDigits (f0 :: (fs0 ++ r)) = (f0 :: fs0, r) := by
      simpa using hsp2
    simp [hsp2b]

theorem numDes_miss (des : Char) (l n : List Char) (c : Char) (r2 : List Char)
    (h : numTok l = some (n, c :: r2)) (hc : c ≠ des) :
    numDes des l = (none, l) := by
  simp [numDes, h, hc]

theorem numDes_hit (des : Char) (l n r2 : List Char)
    (h : numTok l = some (n, des :: r2)) :
    numDes des l = (some n, r2) := by
  simp [numDes, h]

theorem numDes_skip (des : Char) (l : List Char) (h : numTok l = none) :
    numDes des l = (none, l) := by
  simp [numDes, h]

theorem numDes_nil (des : Char) : numDes des [] = (none, []) := rfl

theorem matchDuration_month (ds : List Char) (fr : Option (List Char)) (h : NumShape ds fr) :
    matchDuration ('P' :: (numChars ds fr ++ ['M']))
      = some ⟨none, none, some (numChars ds fr), none, none, none, none⟩ := by
  have hM : ∀ c : Char, (['M'] : List Char).head? = some c → c.isDigit = false ∧ c ≠ '.' := by
    intro c hc
    cases hc
    exact ⟨by decide, by decide⟩
  have htok : numTok (numChars ds fr ++ ['M']) = some (numChars ds fr, ['M']) :=
    numTok_numChars ds fr ['M'] h hM
  have hY : numDes 'Y' (numChars ds fr ++ ['M']) = (none, numChars ds fr ++ ['M']) :=
    numDes_miss 'Y' _ _ 'M' [] htok (by decide)
  have hMd : numDes 'M' (numChars ds fr ++ ['M']) = (some (numChars ds fr), []) :=
    numDes_hit 'M' _ _ [] htok
  have hsgn : signSplit ('P' :: (numChars ds fr ++ ['M']))
      = (none, 'P' :: (numChars ds fr ++ ['M'])) := rfl
  simp only [matchDuration, hsgn]
  simp only [show afterP ('P' :: (numChars ds fr ++ ['M'])) = some (numChars ds fr ++ ['M'])
    from rfl]
  rw [hY, hMd]
  rfl

theorem matchDuration_minute (ds : List Char) (fr : Option (List Char)) (h : NumShape ds fr) :
    matchDuration ('P' :: 'T' :: (numChars ds fr ++ ['M']))
      = some ⟨none, none, none, none, none, some (numChars ds fr), none⟩ := by
  have hM : ∀ c : Char, (['M'] : List Char).head? = some c → c.isDigit = false ∧ c ≠ '.' := by
    intro c hc
    cases hc
    exact ⟨by decide, by decide⟩
  have htok : numTok (numChars ds fr ++ ['M']) = some (numChars ds fr, ['M']) :=
    numTok_numChars ds fr ['M'] h hM
  have hT : numTok ('T' :: (numChars ds fr ++ ['M'])) = none :=
    numTok_none_of_head _ (fun c hc => by cases hc; decide)
  have hskipT : ∀ des : Char, numDes des ('T' :: (numChars ds fr ++ ['M']))
      = (none, 'T' :: (numChars ds fr ++ ['M'])) := fun des => numDes_skip des _ hT
  have hH : numDes 'H' (numChars ds fr ++ ['M']) = (none, numChars ds fr ++ ['M']) :=
    numDes_miss 'H' _ _ 'M' [] htok (by decide)
  have hMd : numDes 'M' (numChars ds fr ++ ['M']) = (some (numChars ds fr), []) :=
    numDes_hit 'M' _ _ [] htok
  have hsgn : signSplit ('P' :: 'T' :: (numChars ds fr ++ ['M']))
      = (none, 'P' :: 'T' :: (numChars ds fr ++ ['M'])) := rfl
  simp only [matchDuration, hsgn]
  simp only [show afterP ('P' :: 'T' :: (numChars ds fr ++ ['M']))
      = some ('T' :: (numChars ds fr ++ ['M'])) from rfl]
  rw [hskipT 'Y', hskipT 'M', hskipT 'D']
  rw [show dropT ('T' :: (numChars ds fr ++ ['M'])) = numChars ds fr ++ ['M'] from rfl]
  rw [hH, hMd]
  rfl

theorem matchDuration_day (ds : List Char) (h : NumShape ds none) :
    matchDuration ('P' :: (numChars ds none ++ ['D']))
      = some ⟨none, none, none, some (numChars ds none), none, none, none⟩ := by
  have hD : ∀ c : Char, (['D'] : List Char).head? = some c → c.isDigit = false ∧ c ≠ '.' := by
    intro c hc
    cases hc
    exact ⟨by decide, by decide⟩
  have htok : numTok (numChars ds none ++ ['D']) = some (numChars ds none, ['D']) :=
    numTok_numChars ds none ['D'] h hD
  have hY : numDes 'Y' (numChars ds none ++ ['D']) = (none, numChars ds none ++ ['D']) :=
    numDes_miss 'Y' _ _ 'D' [] htok (by decide)
  have hM : numDes 'M' (numChars ds none ++ ['D']) = (none, numChars ds none ++ ['D']) :=
    numDes_miss 'M' _ _ 'D' [] htok (by decide)
  have hDd : numDes 'D' (numChars ds none ++ ['D']) = (some (numChars ds none), []) :=
    numDes_hit 'D' _ _ [] htok
  have hsgn : signSplit ('P' :: (numChars ds none ++ ['D']))
      = (none, 'P' :: (numChars ds none ++ ['D'])) := rfl
  simp only [matchDuration, hsgn]
  simp only [show afterP ('P' :: (numChars ds none ++ ['D'])) = some (numChars ds none ++ ['D'])
    from rfl]
  rw [hY, hM, hDd]
  rfl

theorem matchDuration_sign (r : List Char) (g : DurGroups)
    (h : matchDuration ('-' :: r) = some g) : g.sign = some '-' := by
  have hsgn : signSplit ('-' :: r) = (some '-', r) := rfl
  simp only [matchDuration, hsgn] at h
  rcases ha : afterP r with _ | l2
  · rw [ha] at h
    simp at h
  · rw [ha] at h
    simp only [] at h
    split at h
    · cases h
      rfl
    · cases h

/-! ## Helper lemmas: decimal arithmetic and its rational meaning -/

theorem Dec.toRat_scale (k : Int) (a : Dec) : (Dec.scale k a).toRat = k * a.toRat := by
  unfold Dec.toRat Dec.scale
  push_cast
  ring

theorem Dec.toRat_add (a b : Dec) : (Dec.add a b).toRat = a.toRat + b.toRat := by
  unfold Dec.toRat Dec.add
  simp only []
  have h1 : (10 : ℚ) ^ (max a.exp b.exp - a.exp) * 10 ^ a.exp = 10 ^ max a.exp b.exp := by
    rw [← pow_add]
    congr 1
    have := le_max_left a.exp b.exp
    omega
  have h2 : (10 : ℚ) ^ (max a.exp b.exp - b.exp) * 10 ^ b.exp = 10 ^ max a.exp b.exp := by
    rw [← pow_add]
    congr 1
    have := le_max_right a.exp b.exp
    omega
  push_cast
  rw [add_div]
  congr 1
  · rw [div_eq_div_iff (by positivity) (by positivity), mul_assoc, h1]
  · rw [div_eq_div_iff (by positivity) (by positivity), mul_assoc, h2]

theorem decOfNumStr_toRat (l : List Char) : (decOfNumStr l).toRat = ratOfNumStr l := by
  rcases hsp : spanDigits l with ⟨ds, rest⟩
  simp only [decOfNumStr, ratOfNumStr, hsp]
  split
  · simp only [Dec.toRat]
    push_cast
    rw [add_div]
    congr 1
    rw [mul_div_cancel_right₀]
    positivity
  · simp [Dec.toRat]

theorem decOfGroup_toRat (o : Option (List Char)) : (decOfGroup o).toRat = ratOfGroup o := by
  cases o with
  | none => simp [decOfGroup, ratOfGroup, Dec.toRat]
  | some l => exact decOfNumStr_toRat l

theorem Dec.roundHalfEven_toRat (a : Dec) : a.roundHalfEven = roundHalfEvenQ a.toRat := by
  have hppos : (0 : Int) < 10 ^ a.exp := by positivity
  have hpq : ((10 ^ a.exp : ℕ) : ℚ) = (10 : ℚ) ^ a.exp := by push_cast; ring
  have hfloor : ⌊a.toRat⌋ = a.num.fdiv (10 ^ a.exp) := by
    rw [Dec.toRat, ← hpq, Rat.floor_intCast_div_natCast,
      Int.fdiv_eq_ediv _ (by positivity)]
    norm_cast
  have hfdm := Int.fdiv_add_fmod a.num (10 ^ a.exp)
  have hnum : (a.num : ℚ) = (10 : ℚ) ^ a.exp * ((a.num.fdiv (10 ^ a.exp) : ℤ) : ℚ)
      + ((a.num.fmod (10 ^ a.exp) : ℤ) : ℚ) := by
    rw [← Int.cast_natCast] at hpq
    calc (a.num : ℚ) = (((10 ^ a.exp * a.num.fdiv (10 ^ a.exp) + a.num.fmod (10 ^ a.exp)) : ℤ) : ℚ) := by
          exact_mod_cast congrArg (fun z : ℤ => (z : ℚ)) hfdm.symm
      _ = _ := by push_cast; ring
  have hfrac : a.toRat - (⌊a.toRat⌋ : ℚ)
      = ((a.num.fmod (10 ^ a.exp) : ℤ) : ℚ) / (10 : ℚ) ^ a.exp := by
    rw [hfloor, Dec.toRat, hnum]
    field_simp
  have hlt : (a.toRat - (⌊a.toRat⌋ : ℚ) < 1 / 2)
      = (2 * a.num.fmod (10 ^ a.exp) < 10 ^ a.exp) := by
    rw [hfrac, div_lt_iff₀ (by positivity)]
    apply propext
    constructor <;> intro h
    · have h2 : ((2 * a.num.fmod (10 ^ a.exp) : ℤ) : ℚ) < ((10 ^ a.exp : ℤ) : ℚ) := by
        push_cast
        linarith
      exact_mod_cast h2
    · have h2 : ((2 * a.num.fmod (10 ^ a.exp) : ℤ) : ℚ) < ((10 ^ a.exp : ℤ) : ℚ) := by
        exact_mod_cast h
      push_cast at h2
      linarith
  have hgt : (1 / 2 < a.toRat - (⌊a.toRat⌋ : ℚ))
      = ((10 : ℤ) ^ a.exp < 2 * a.num.fmod (10 ^ a.exp)) := by
    rw [hfrac, lt_div_iff₀ (by positivity)]
    apply propext
    constructor <;> intro h
    · have h2 : ((10 ^ a.exp : ℤ) : ℚ) < ((2 * a.num.fmod (10 ^ a.exp) : ℤ) : ℚ) := by
        push_cast
        linarith
      exact_mod_cast h2
    · have h2 : ((10 ^ a.exp : ℤ) : ℚ) < ((2 * a.num.fmod (10 ^ a.exp) : ℤ) : ℚ) := by
        exact_mod_cast h
      push_cast at h2
      linarith
  simp only [Dec.roundHalfEven, roundHalfEvenQ]
  simp only [hlt, hgt]
  simp only [hfloor]

theorem mkTimedelta_toRat (d f : Dec) : mkTimedelta d f = mkTimedeltaQ d.toRat f.toRat := by
  unfold mkTimedelta mkTimedeltaQ
  have h : (Dec.add (Dec.scale 86400000000 d) (Dec.scale 1000000 f)).roundHalfEven
      = roundHalfEvenQ (d.toRat * 86400000000 + f.toRat * 1000000) := by
    rw [Dec.roundHalfEven_toRat, Dec.toRat_add, Dec.toRat_scale, Dec.toRat_scale]
    congr 1
    push_cast
    ring
  rw [h]

theorem decOfNumStr_num_nonneg (l : List Char) : 0 ≤ (decOfNumStr l).num := by
  rcases hsp : spanDigits l with ⟨ds, rest⟩
  simp only [decOfNumStr, hsp]
  split
  · positivity
  · positivity

theorem decOfGroup_num_nonneg (o : Option (List Char)) : 0 ≤ (decOfGroup o).num := by
  cases o with
  | none => simp [decOfGroup]
  | some l => exact decOfNumStr_num_nonneg l

theorem Dec.add_num_nonneg {a b : Dec} (ha : 0 ≤ a.num) (hb : 0 ≤ b.num) :
    0 ≤ (Dec.add a b).num := by
  simp only [Dec.add]
  have h1 : (0 : Int) ≤ a.num * 10 ^ (max a.exp b.exp - a.exp) :=
    mul_nonneg ha (by positivity)
  have h2 : (0 : Int) ≤ b.num * 10 ^ (max a.exp b.exp - b.exp) :=
    mul_nonneg hb (by positivity)
  omega

theorem Dec.scale_num_nonneg {k : Int} {a : Dec} (hk : 0 ≤ k) (ha : 0 ≤ a.num) :
    0 ≤ (Dec.scale k a).num := mul_nonneg hk ha

theorem Dec.roundHalfEven_nonneg (a : Dec) (h : 0 ≤ a.num) : 0 ≤ a.roundHalfEven := by
  have hp : (0 : Int) < 10 ^ a.exp := by positivity
  have hf : 0 ≤ a.num.fdiv (10 ^ a.exp) := Int.fdiv_nonneg h (le_of_lt hp)
  simp only [Dec.roundHalfEven]
  split_ifs <;> omega

/-- Exponent-zero decimals round to their own mantissa. -/
theorem Dec.roundHalfEven_exp0 (n : Int) : (Dec.roundHalfEven ⟨n, 0⟩) = n := by
  simp [Dec.roundHalfEven]

theorem parse_duration_str_eq (s : String) (g : DurGroups)
    (hm : matchDuration s.data = some g) (hs : g.sign ≠ some '-') :
    parse_duration (.str s) = mkTimedelta
      (Dec.add (Dec.add (decOfGroup g.days) (Dec.scale 30 (decOfGroup g.months)))
        (Dec.scale 365 (decOfGroup g.years)))
      (Dec.add (Dec.add (decOfGroup g.seconds) (Dec.scale 60 (decOfGroup g.minutes)))
        (Dec.scale 3600 (decOfGroup g.hours))) := by
  simp only [parse_duration, hm]
  rw [if_neg hs]
  norm_num

/-- Digit-only tokens evaluate to their digit value. -/
theorem decOfNumStr_digits (l : List Char) (hl : ∀ c ∈ l, c.isDigit = true) :
    decOfNumStr l = ⟨(natOfDigits l : Int), 0⟩ := by
  have hsp : spanDigits l = (l, []) := by
    have := spanDigits_append l [] hl (fun c hc => by cases hc)
    simpa using this
  simp [decOfNumStr, hsp]

/-! ## Claim theorems: durations -/

/-- C2 (amended): the malformed input "not-a-date" is rejected by both
parsers and "P" is rejected by the date-time parser, but the duration
grammar matches "P" with every component absent, so parse_duration "P"
returns the zero-length elapsed time instead of failing. -/
theorem c2_malformed_inputs :
    parse_datetime (.str "not-a-date") none = .error "Invalid date-time input!" ∧
    parse_datetime (.str "P") none = .error "Invalid date-time input!" ∧
    parse_duration (.str "not-a-date") = .error "Could not parse ISO 8601 duration." ∧
    parse_duration (.str "P") = .ok 0 :=
  ⟨rfl, rfl, rfl, rfl⟩

/-- C2 counterexample: contrary to the claim, parse_duration "P" does not
raise a malformed-input error; it returns the zero-length elapsed time. -/
theorem c2_counterexample : parse_duration (.str "P") = .ok 0 := rfl

/-- C5 (amended): a duration string that begins with the sign "-" and
matches the grammar (any magnitude, zero included) is rejected with a
malformed-input error, and every value parse_duration returns for a STRING
input is nonnegative; an already-typed negative elapsed-time input is,
however, passed through unchanged. -/
theorem c5_negative_sign_rejected :
    (∀ (s : String) (g : DurGroups), matchDuration s.data = some g →
      s.data.head? = some '-' →
      parse_duration (.str s) = .error "Duration must not be negative!") ∧
    (∀ (s : String) (t : Int), parse_duration (.str s) = .ok t → 0 ≤ t) := by
  constructor
  · intro s g hm hh
    rcases hd : s.data with _ | ⟨c, r⟩
    · rw [hd] at hh
      cases hh
    · rw [hd] at hh hm
      have hc : c = '-' := by
        have : some c = some '-' := by simpa using hh
        exact Option.some.inj this
      subst hc
      have hsgn := matchDuration_sign r g hm
      simp only [parse_duration, hd, hm, hsgn]
      norm_num
  · intro s t h
    rcases hm : matchDuration s.data with _ | g
    · simp only [parse_duration, hm] at h
      cases h
    · by_cases hs : g.sign = some '-'
      · simp only [parse_duration, hm, hs] at h
        simp at h
      · rw [parse_duration_str_eq s g hm hs] at h
        unfold mkTimedelta at h
        have hD : 0 ≤ (Dec.add (Dec.add (decOfGroup g.days)
            (Dec.scale 30 (decOfGroup g.months))) (Dec.scale 365 (decOfGroup g.years))).num :=
          Dec.add_num_nonneg
            (Dec.add_num_nonneg (decOfGroup_num_nonneg _)
              (Dec.scale_num_nonneg (by norm_num) (decOfGroup_num_nonneg _)))
            (Dec.scale_num_nonneg (by norm_num) (decOfGroup_num_nonneg _))
        have hF : 0 ≤ (Dec.add (Dec.add (decOfGroup g.seconds)
            (Dec.scale 60 (decOfGroup g.minutes))) (Dec.scale 3600 (decOfGroup g.hours))).num :=
          Dec.add_num_nonneg
            (Dec.add_num_nonneg (decOfGroup_num_nonneg _)
              (Dec.scale_num_nonneg (by norm_num) (decOfGroup_num_nonneg _)))
            (Dec.scale_num_nonneg (by norm_num) (decOfGroup_num_nonneg _))
        have htot : 0 ≤ (Dec.add (Dec.scale 86400000000 (Dec.add (Dec.add (decOfGroup g.days)
            (Dec.scale 30 (decOfGroup g.months))) (Dec.scale 365 (decOfGroup g.years))))
            (Dec.scale 1000000 (Dec.add (Dec.add (decOfGroup g.seconds)
            (Dec.scale 60 (decOfGroup g.minutes))) (Dec.scale 3600 (decOfGroup g.hours))))).num :=
          Dec.add_num_nonneg
            (Dec.scale_num_nonneg (by norm_num) hD)
            (Dec.scale_num_nonneg (by norm_num) hF)
        simp only [] at h
        split at h
        · cases h
          exact Dec.roundHalfEven_nonneg _ htot
        · cases h

/-- C5 counterexample: parse_duration successfully returns a negative value
when handed an already-typed negative elapsed-time input, so not every
successfully returned value is nonnegative. -/
theorem c5_counterexample :
    parse_duration (.td (-86400000000)) = .ok (-86400000000) ∧ (-86400000000 : Int) < 0 :=
  ⟨rfl, by norm_num⟩

/-- C5 witness: the negative-signed string "-P0D" (zero magnitude) is
rejected, and a string parse that succeeds returns a nonnegative value. -/
theorem c5_witness :
    parse_duration (.str "-P0D") = .error "Duration must not be negative!" ∧
    (0 : Int) ≤ 86400000000 := by
  constructor
  · exact c5_negative_sign_rejected.1 "-P0D"
      ⟨some '-', none, none, some ['0'], none, none, none⟩ (by rfl) (by rfl)
  · exact c5_negative_sign_rejected.2 "P1D" 86400000000 (by rfl)

/-- C6: for every duration string the parser accepts, the returned elapsed
time is built from the day count 365y + 30m + d and the fractional-seconds
total 3600h + 60min + s of the captured components; in particular
"P1DT2H30M" is 1 day plus 9000 seconds. -/
theorem c6_duration_decoding_policy :
    (∀ (s : String) (t : Int), parse_duration (.str s) = .ok t →
      ∃ g, matchDuration s.data = some g ∧
        mkTimedeltaQ
          (365 * ratOfGroup g.years + 30 * ratOfGroup g.months + ratOfGroup g.days)
          (3600 * ratOfGroup g.hours + 60 * ratOfGroup g.minutes + ratOfGroup g.seconds)
          = .ok t) ∧
    parse_duration (.str "P1DT2H30M") = .ok ((86400 + 9000) * 1000000) := by
  constructor
  · intro s t h
    rcases hm : matchDuration s.data with _ | g
    · simp only [parse_duration, hm] at h
      cases h
    · refine ⟨g, rfl, ?_⟩
      by_cases hs : g.sign = some '-'
      · simp only [parse_duration, hm, hs] at h
        simp at h
      · rw [parse_duration_str_eq s g hm hs, mkTimedelta_toRat] at h
        simp only [Dec.toRat_add, Dec.toRat_scale, decOfGroup_toRat] at h
        have e1 : 365 * ratOfGroup g.years + 30 * ratOfGroup g.months + ratOfGroup g.days
            = ratOfGroup g.days + 30 * ratOfGroup g.months + 365 * ratOfGroup g.years := by
          ring
        have e2 : 3600 * ratOfGroup g.hours + 60 * ratOfGroup g.minutes + ratOfGroup g.seconds
            = ratOfGroup g.seconds + 60 * ratOfGroup g.minutes + 3600 * ratOfGroup g.hours := by
          ring
        rw [e1, e2]
        exact h
  · rfl

/-- C6 witness: the concrete accepted string "P1DT2H30M" (1 day plus 9000
seconds) instantiates the decoding-policy characterisation. -/
theorem c6_witness :
    ∃ g, matchDuration ("P1DT2H30M" : String).data = some g ∧
      mkTimedeltaQ
        (365 * ratOfGroup g.years + 30 * ratOfGroup g.months + ratOfGroup g.days)
        (3600 * ratOfGroup g.hours + 60 * ratOfGroup g.minutes + ratOfGroup g.seconds)
        = .ok ((86400 + 9000) * 1000000) :=
  c6_duration_decoding_policy.1 "P1DT2H30M" ((86400 + 9000) * 1000000) (by rfl)

/-- C10: the designator M is disambiguated purely by its position relative
to the optional T separator: for every number token n, "P<n>M" parses as n
months (30n days) while "PT<n>M" parses as n minutes (60n seconds). -/
theorem c10_month_minute_disambiguation (ds : List Char) (fr : Option (List Char))
    (h : NumShape ds fr) :
    parse_duration (.str (String.mk ('P' :: (numChars ds fr ++ ['M']))))
        = mkTimedeltaQ (30 * ratOfNumStr (numChars ds fr)) 0 ∧
    parse_duration (.str (String.mk ('P' :: 'T' :: (numChars ds fr ++ ['M']))))
        = mkTimedeltaQ 0 (60 * ratOfNumStr (numChars ds fr)) := by
  constructor
  · have hm : matchDuration (String.mk ('P' :: (numChars ds fr ++ ['M']))).data
        = some ⟨none, none, some (numChars ds fr), none, none, none, none⟩ :=
      matchDuration_month ds fr h
    rw [parse_duration_str_eq _ _ hm (by simp), mkTimedelta_toRat]
    simp only [Dec.toRat_add, Dec.toRat_scale, decOfGroup_toRat]
    push_cast
    have e1 : ratOfGroup none + 30 * ratOfGroup (some (numChars ds fr)) + 365 * ratOfGroup none
        = 30 * ratOfNumStr (numChars ds fr) := by
      simp [ratOfGroup]
    have e2 : ratOfGroup none + 60 * ratOfGroup none + 3600 * ratOfGroup none = (0 : ℚ) := by
      simp [ratOfGroup]
    rw [e1, e2]
  · have hm : matchDuration (String.mk ('P' :: 'T' :: (numChars ds fr ++ ['M']))).data
        = some ⟨none, none, none, none, none, some (numChars ds fr), none⟩ :=
      matchDuration_minute ds fr h
    rw [parse_duration_str_eq _ _ hm (by simp), mkTimedelta_toRat]
    simp only [Dec.toRat_add, Dec.toRat_scale, decOfGroup_toRat]
    push_cast
    have e1 : ratOfGroup none + 30 * ratOfGroup none + 365 * ratOfGroup none = (0 : ℚ) := by
      simp [ratOfGroup]
    have e2 : ratOfGroup none + 60 * ratOfGroup (some (numChars ds fr)) + 3600 * ratOfGroup none
        = 60 * ratOfNumStr (numChars ds fr) := by
      simp [ratOfGroup]
    rw [e1, e2]

/-- C10 witness: with the token "1", "P1M" decodes as one month (30 days)
and "PT1M" as one minute (60 seconds). -/
theorem c10_witness :
    parse_duration (.str (String.mk ('P' :: (numChars ['1'] none ++ ['M']))))
        = mkTimedeltaQ (30 * ratOfNumStr (numChars ['1'] none)) 0 ∧
    parse_duration (.str (String.mk ('P' :: 'T' :: (numChars ['1'] none ++ ['M']))))
        = mkTimedeltaQ 0 (60 * ratOfNumStr (numChars ['1'] none)) :=
  c10_month_minute_disambiguation ['1'] none ⟨by decide, by decide, trivial⟩

/-- Whole positive day counts encode back to the canonical day-only string. -/
theorem encode_duration_whole_days (n : Nat) (h1 : 1 ≤ n) :
    encode_duration (86400000000 * (n : Int)) = String.mk ('P' :: (natToChars n ++ ['D'])) := by
  have hdays : tdDays (86400000000 * (n : Int)) = (n : Int) := by
    unfold tdDays
    exact Int.mul_fdiv_cancel_left _ (by norm_num)
  have hnotneg : ¬ tdDays (86400000000 * (n : Int)) < 0 := by
    rw [hdays]
    exact not_lt.mpr (by positivity)
  have hsec : tdSeconds (86400000000 * (n : Int)) = 0 := by
    unfold tdSeconds
    rw [Int.mul_fmod_right]
    simp
  have hmic : tdMicros (86400000000 * (n : Int)) = 0 := by
    unfold tdMicros
    rw [show (86400000000 : Int) * (n : Int) = 1000000 * (86400 * (n : Int)) from by ring]
    exact Int.mul_fmod_right _ _
  have hne : (n : Int) ≠ 0 := by
    have : (0 : Int) < (n : Int) := by exact_mod_cast h1
    omega
  have hva : (if tdDays (86400000000 * (n : Int)) < 0
      then -(86400000000 * (n : Int)) else 86400000000 * (n : Int)) = 86400000000 * (n : Int) :=
    if_neg hnotneg
  simp only [encode_duration]
  rw [hva, if_neg hnotneg, hdays, hsec, hmic]
  simp [hne]

/-- C8 (amended): for every day-only duration string "P<n>D" whose day
count n is written canonically (no leading zeros) and lies within the
timedelta day range 1..999999999, the round trip
encode_duration (parse_duration "P<n>D") returns the same string; a
non-canonical spelling such as "P01D" instead round-trips to the canonical
"P1D". -/
theorem c8_day_roundtrip (n : Nat) (h1 : 1 ≤ n) (h2 : n ≤ 999999999) :
    (parse_duration (.str (String.mk ('P' :: (natToChars n ++ ['D']))))).map encode_duration
      = .ok (String.mk ('P' :: (natToChars n ++ ['D']))) := by
  have hshape : NumShape (natToChars n) none :=
    ⟨natToChars_ne_nil n, natToChars_digits n, trivial⟩
  have hm : matchDuration (String.mk ('P' :: (natToChars n ++ ['D']))).data
      = some ⟨none, none, none, some (natToChars n), none, none, none⟩ := by
    have := matchDuration_day (natToChars n) hshape
    simpa [numChars] using this
  rw [parse_duration_str_eq _ _ hm (by simp)]
  have hdec : decOfGroup (some (natToChars n)) = ⟨(n : Int), 0⟩ := by
    show decOfNumStr (natToChars n) = _
    rw [decOfNumStr_digits _ (natToChars_digits n), natOfDigits_natToChars]
  have hdayDec : Dec.add (Dec.add (decOfGroup (some (natToChars n)))
      (Dec.scale 30 (decOfGroup none))) (Dec.scale 365 (decOfGroup none)) = ⟨(n : Int), 0⟩ := by
    rw [hdec]
    simp [Dec.add, Dec.scale, decOfGroup]
  have hfsecDec : Dec.add (Dec.add (decOfGroup none)
      (Dec.scale 60 (decOfGroup none))) (Dec.scale 3600 (decOfGroup none)) = ⟨0, 0⟩ := by
    simp [Dec.add, Dec.scale, decOfGroup]
  rw [hdayDec, hfsecDec]
  have htotal : Dec.add (Dec.scale 86400000000 ⟨(n : Int), 0⟩) (Dec.scale 1000000 ⟨0, 0⟩)
      = ⟨86400000000 * (n : Int), 0⟩ := by
    simp [Dec.add, Dec.scale]
  have hok : mkTimedelta ⟨(n : Int), 0⟩ ⟨0, 0⟩ = .ok (86400000000 * (n : Int)) := by
    unfold mkTimedelta
    rw [htotal, Dec.roundHalfEven_exp0]
    have hb : ((86400000000 * (n : Int)).fdiv 86400000000).natAbs ≤ 999999999 := by
      rw [Int.mul_fdiv_cancel_left _ (by norm_num), Int.natAbs_ofNat]
      exact h2
    rw [if_pos hb]
  rw [hok]
  show Except.ok (encode_duration (86400000000 * (n : Int))) = _
  rw [encode_duration_whole_days n h1]

/-- C8 counterexample: "P01D" is a day-only duration string with nonzero
whole-number day count, but its round trip yields "P1D", not "P01D". -/
theorem c8_counterexample :
    (parse_duration (.str "P01D")).map encode_duration = .ok "P1D" ∧
    ("P1D" : String) ≠ "P01D" := by
  exact ⟨by rfl, by decide⟩

/-- C8 witness: the canonical day-only string "P1D" round-trips to itself. -/
theorem c8_witness :
    (parse_duration (.str "P1D")).map encode_duration = .ok "P1D" := by
  have h := c8_day_roundtrip 1 (by norm_num) (by norm_num)
  exact h

/-! ## Claim theorems: the duration encoder -/

theorem tdDays_neg_iff (v : Int) : tdDays v < 0 ↔ v < 0 := by
  unfold tdDays
  constructor
  · intro h
    by_contra hv
    push_neg at hv
    have := Int.fdiv_nonneg hv (show (0 : Int) ≤ 86400000000 by norm_num)
    omega
  · intro h
    exact Int.fdiv_neg' h (by norm_num)

/-- C7: the zero value encodes exactly as "PT0S"; any value whose absolute
value has a nonzero sub-day remainder encodes with a T section holding an
hours designator only if hours are nonzero, a minutes designator only if
minutes are nonzero, and a seconds designator with exactly six fractional
digits when microseconds are present (5.5 seconds gives "PT5.500000S"), or
as a plain integer when microseconds are zero and seconds are nonzero. -/
theorem c7_encode_duration_subday :
    encode_duration 0 = "PT0S" ∧
    encode_duration 5500000 = "PT5.500000S" ∧
    ∀ v a : Int, a = (if tdDays v < 0 then -v else v) →
      ((tdSeconds a).toNat ≠ 0 ∨ (tdMicros a).toNat ≠ 0) →
      encode_duration v = String.mk ((if tdDays v < 0 then ['-'] else []) ++ 'P'
        :: ((if tdDays a ≠ 0 then natToChars (tdDays a).toNat ++ ['D'] else [])
        ++ 'T' :: ((if (tdSeconds a).toNat / 60 / 60 ≠ 0
              then natToChars ((tdSeconds a).toNat / 60 / 60) ++ ['H'] else [])
          ++ (if (tdSeconds a).toNat / 60 % 60 ≠ 0
              then natToChars ((tdSeconds a).toNat / 60 % 60) ++ ['M'] else [])
          ++ (if (tdMicros a).toNat ≠ 0
              then natToChars ((tdSeconds a).toNat % 60) ++ '.' :: (pad6 (tdMicros a).toNat ++ ['S'])
              else if (tdSeconds a).toNat % 60 ≠ 0
              then natToChars ((tdSeconds a).toNat % 60) ++ ['S'] else [])))) := by
  refine ⟨by decide, by decide, ?_⟩
  intro v a ha hsub
  subst ha
  have hsub2 : 0 < tdSeconds (if tdDays v < 0 then -v else v)
      ∨ 0 < tdMicros (if tdDays v < 0 then -v else v) := by
    rcases hsub with h | h
    · left
      omega
    · right
      omega
  have hns2 : ¬(tdSeconds (if tdDays v < 0 then -v else v) ≤ 0
      ∧ tdMicros (if tdDays v < 0 then -v else v) ≤ 0) := by
    rintro ⟨h1, h2⟩
    rcases hsub2 with h | h <;> omega
  simp only [encode_duration]
  by_cases hd : tdDays (if tdDays v < 0 then -v else v) = 0
  · simp [hd, hsub2, hns2]
  · simp [hd, hsub2, hns2]

/-- C7 witness: an elapsed time of 5.5 seconds has a nonzero sub-day
remainder and encodes as "PT5.500000S". -/
theorem c7_witness : encode_duration 5500000 = "PT5.500000S" := by
  have h := c7_encode_duration_subday.2.2 5500000 5500000 (by rfl) (Or.inl (by decide))
  rw [h]
  decide

/-! ## The output grammar of the duration encoder (from the specification) -/

/-- Nonempty string of decimal digits (the `n` of the output grammar). -/
def IsNum (l : List Char) : Prop := l ≠ [] ∧ ∀ c ∈ l, c.isDigit = true

/-- Optional component `(nX)?` of the output grammar. -/
def OptDes (des : Char) (l : List Char) : Prop :=
  l = [] ∨ ∃ n, IsNum n ∧ l = n ++ [des]

/-- Optional seconds component `(n(.ffffff)?S)?` of the output grammar,
with exactly six fractional digits when the fraction is present. -/
def SecUnit (l : List Char) : Prop :=
  l = [] ∨ ∃ n, IsNum n ∧ (l = n ++ ['S'] ∨
    ∃ f, f.length = 6 ∧ (∀ c ∈ f, c.isDigit = true) ∧ l = n ++ '.' :: (f ++ ['S']))

/-- Optional sub-day section `(T(nH)?(nM)?(n(.ffffff)?S)?)?` of the output
grammar. -/
def TUnit (l : List Char) : Prop :=
  l = [] ∨ ∃ h m s, OptDes 'H' h ∧ OptDes 'M' m ∧ SecUnit s ∧ l = 'T' :: (h ++ m ++ s)

/-- Modelled from the spec: the grammar `P(nD)?(T(nH)?(nM)?(nS(.ffffff)?)?)?`
of section 6 (with the fraction read as part of the seconds number, as the
encoder emits it); the literal `PT0S` is an instance of this shape. -/
def SpecDurGrammar (l : List Char) : Prop :=
  ∃ d t, OptDes 'D' d ∧ TUnit t ∧ l = 'P' :: (d ++ t)

theorem IsNum_natToChars (n : Nat) : IsNum (natToChars n) :=
  ⟨natToChars_ne_nil n, natToChars_digits n⟩

theorem OptDes_not_mem {des : Char} {l : List Char} (h : OptDes des l) (c : Char)
    (hc1 : c.isDigit = false) (hc2 : c ≠ des) : c ∉ l := by
  rcases h with rfl | ⟨n, hn, rfl⟩
  · simp
  · intro hm
    rcases List.mem_append.mp hm with h1 | h1
    · have := hn.2 c h1
      rw [this] at hc1
      cases hc1
    · exact hc2 (List.mem_singleton.mp h1)

theorem SecUnit_not_mem {l : List Char} (h : SecUnit l) (c : Char)
    (hc1 : c.isDigit = false) (hc2 : c ≠ 'S') (hc3 : c ≠ '.') : c ∉ l := by
  rcases h with rfl | ⟨n, hn, rfl | ⟨f, hf6, hfd, rfl⟩⟩
  · simp
  · intro hm
    rcases List.mem_append.mp hm with h1 | h1
    · have := hn.2 c h1
      rw [this] at hc1
      cases hc1
    · exact hc2 (List.mem_singleton.mp h1)
  · intro hm
    rcases List.mem_append.mp hm with h1 | h1
    · have := hn.2 c h1
      rw [this] at hc1
      cases hc1
    · rcases List.mem_cons.mp h1 with h2 | h2
      · exact hc3 h2
      · rcases List.mem_append.mp h2 with h3 | h3
        · have := hfd c h3
          rw [this] at hc1
          cases hc1
        · exact hc2 (List.mem_singleton.mp h3)

theorem TUnit_not_mem {l : List Char} (h : TUnit l) (c : Char)
    (hc1 : c.isDigit = false) (hcT : c ≠ 'T') (hcH : c ≠ 'H') (hcM : c ≠ 'M')
    (hcS : c ≠ 'S') (hcD : c ≠ '.') : c ∉ l := by
  rcases h with rfl | ⟨hp, mp, sp, hH, hM, hS, rfl⟩
  · simp
  · intro hm
    rcases List.mem_cons.mp hm with h1 | h1
    · exact hcT h1
    · rcases List.mem_append.mp h1 with h2 | h2
      · rcases List.mem_append.mp h2 with h3 | h3
        · exact OptDes_not_mem hH c hc1 hcH h3
        · exact OptDes_not_mem hM c hc1 hcM h3
      · exact SecUnit_not_mem hS c hc1 hcS hcD h2

theorem SpecDurGrammar_no_year {l : List Char} (h : SpecDurGrammar l) : 'Y' ∉ l := by
  obtain ⟨d, t, hd, ht, rfl⟩ := h
  intro hm
  rcases List.mem_cons.mp hm with h1 | h1
  · cases h1
  · rcases List.mem_append.mp h1 with h2 | h2
    · exact OptDes_not_mem hd 'Y' (by decide) (by decide) h2
    · exact TUnit_not_mem ht 'Y' (by decide) (by decide) (by decide) (by decide)
        (by decide) (by decide) h2

/-- Day component emitted by the encoder (`%dD` when days are nonzero). -/
def encDayPart (d : Int) : List Char := if d ≠ 0 then natToChars d.toNat ++ ['D'] else []

/-- Hour component emitted by the encoder. -/
def encHourPart (s : Nat) : List Char :=
  if s / 60 / 60 ≠ 0 then natToChars (s / 60 / 60) ++ ['H'] else []

/-- Minute component emitted by the encoder. -/
def encMinPart (s : Nat) : List Char :=
  if s / 60 % 60 ≠ 0 then natToChars (s / 60 % 60) ++ ['M'] else []

/-- Second component emitted by the encoder (`%.6fS` with microseconds,
`%dS` otherwise). -/
def encSecPart (s us : Nat) : List Char :=
  if us ≠ 0 then natToChars (s % 60) ++ '.' :: (pad6 us ++ ['S'])
  else if s % 60 ≠ 0 then natToChars (s % 60) ++ ['S'] else []

theorem OptDes_encDayPart (d : Int) : OptDes 'D' (encDayPart d) := by
  unfold encDayPart
  split
  · exact Or.inr ⟨natToChars d.toNat, IsNum_natToChars _, rfl⟩
  · exact Or.inl rfl

theorem OptDes_encHourPart (s : Nat) : OptDes 'H' (encHourPart s) := by
  unfold encHourPart
  split
  · exact Or.inr ⟨natToChars (s / 60 / 60), IsNum_natToChars _, rfl⟩
  · exact Or.inl rfl

theorem OptDes_encMinPart (s : Nat) : OptDes 'M' (encMinPart s) := by
  unfold encMinPart
  split
  · exact Or.inr ⟨natToChars (s / 60 % 60), IsNum_natToChars _, rfl⟩
  · exact Or.inl rfl

theorem SecUnit_encSecPart (s us : Nat) (h : us < 1000000) : SecUnit (encSecPart s us) := by
  unfold encSecPart
  split
  · exact Or.inr ⟨natToChars (s % 60), IsNum_natToChars _,
      Or.inr ⟨pad6 us, pad6_length us h, pad6_digits us, rfl⟩⟩
  · split
    · exact Or.inr ⟨natToChars (s % 60), IsNum_natToChars _, Or.inl rfl⟩
    · exact Or.inl rfl

/-- C3 (amended): every encoder output consists of an optional leading
minus sign — present exactly when the value is negative — followed by a
core that begins with the character P, matches the output grammar of
section 6, and never contains a year designator. -/
theorem c3_encode_duration_grammar :
    ∀ v : Int, ∃ core : List Char,
      (encode_duration v).data = (if v < 0 then ['-'] else []) ++ core ∧
      core.head? = some 'P' ∧ SpecDurGrammar core ∧ 'Y' ∉ core := by
  intro v
  have hprefix : (if tdDays v < 0 then (['-'] : List Char) else [])
      = (if v < 0 then ['-'] else []) := by
    by_cases h : v < 0
    · rw [if_pos ((tdDays_neg_iff v).mpr h), if_pos h]
    · rw [if_neg (fun hc => h ((tdDays_neg_iff v).mp hc)), if_neg h]
  have husnn : 0 ≤ tdMicros (if tdDays v < 0 then -v else v) := Int.fmod_nonneg' _ (by norm_num)
  have huslt2 : tdMicros (if tdDays v < 0 then -v else v) < 1000000 := Int.fmod_lt_of_pos _ (by norm_num)
  have huslt : (tdMicros (if tdDays v < 0 then -v else v)).toNat < 1000000 := by omega
  have hsecnn : 0 ≤ tdSeconds (if tdDays v < 0 then -v else v) :=
    Int.fdiv_nonneg (Int.fmod_nonneg' _ (by norm_num)) (by norm_num)
  by_cases hsub : (tdSeconds (if tdDays v < 0 then -v else v)).toNat ≠ 0 ∨ (tdMicros (if tdDays v < 0 then -v else v)).toNat ≠ 0
  · have hsub2 : 0 < tdSeconds (if tdDays v < 0 then -v else v) ∨ 0 < tdMicros (if tdDays v < 0 then -v else v) := by
      rcases hsub with h | h
      · left
        omega
      · right
        omega
    have hns2 : ¬(tdSeconds (if tdDays v < 0 then -v else v) ≤ 0 ∧ tdMicros (if tdDays v < 0 then -v else v) ≤ 0) := by
      rintro ⟨h1, h2⟩
      rcases hsub2 with h | h <;> omega
    have hg : SpecDurGrammar ('P' :: (encDayPart (tdDays (if tdDays v < 0 then -v else v))
        ++ 'T' :: (encHourPart (tdSeconds (if tdDays v < 0 then -v else v)).toNat ++ encMinPart (tdSeconds (if tdDays v < 0 then -v else v)).toNat
          ++ encSecPart (tdSeconds (if tdDays v < 0 then -v else v)).toNat (tdMicros (if tdDays v < 0 then -v else v)).toNat))) := by
      refine ⟨encDayPart (tdDays (if tdDays v < 0 then -v else v)),
        'T' :: (encHourPart (tdSeconds (if tdDays v < 0 then -v else v)).toNat ++ encMinPart (tdSeconds (if tdDays v < 0 then -v else v)).toNat
          ++ encSecPart (tdSeconds (if tdDays v < 0 then -v else v)).toNat (tdMicros (if tdDays v < 0 then -v else v)).toNat),
        OptDes_encDayPart _, Or.inr ⟨_, _, _, OptDes_encHourPart _, OptDes_encMinPart _,
          SecUnit_encSecPart _ _ huslt, rfl⟩, rfl⟩
    refine ⟨'P' :: (encDayPart (tdDays (if tdDays v < 0 then -v else v))
        ++ 'T' :: (encHourPart (tdSeconds (if tdDays v < 0 then -v else v)).toNat ++ encMinPart (tdSeconds (if tdDays v < 0 then -v else v)).toNat
          ++ encSecPart (tdSeconds (if tdDays v < 0 then -v else v)).toNat (tdMicros (if tdDays v < 0 then -v else v)).toNat)),
      ?_, rfl, hg, SpecDurGrammar_no_year hg⟩
    rw [← hprefix]
    by_cases hd : tdDays (if tdDays v < 0 then -v else v) = 0
    · simp [encode_duration, encDayPart, encHourPart, encMinPart, encSecPart,
        hd, hsub2, hns2]
    · simp [encode_duration, encDayPart, encHourPart, encMinPart, encSecPart,
        hd, hsub2, hns2]
  · push_neg at hsub
    obtain ⟨hs0, hus0⟩ := hsub
    have hsle : tdSeconds (if tdDays v < 0 then -v else v) ≤ 0 := by omega
    have husle : tdMicros (if tdDays v < 0 then -v else v) ≤ 0 := by omega
    have hnsub2 : ¬(0 < tdSeconds (if tdDays v < 0 then -v else v) ∨ 0 < tdMicros (if tdDays v < 0 then -v else v)) := by
      rintro (h | h) <;> omega
    by_cases hd : tdDays (if tdDays v < 0 then -v else v) = 0
    · have hg : SpecDurGrammar ['P', 'T', '0', 'S'] :=
        ⟨[], ['T', '0', 'S'], Or.inl rfl,
          Or.inr ⟨[], [], ['0', 'S'], Or.inl rfl, Or.inl rfl,
            Or.inr ⟨['0'], ⟨by decide, by decide⟩, Or.inl rfl⟩, rfl⟩, rfl⟩
      refine ⟨['P', 'T', '0', 'S'], ?_, rfl, hg, by decide⟩
      rw [← hprefix]
      simp [encode_duration, hd, hsle, husle, hnsub2, hsecnn, husnn]
    · have hg : SpecDurGrammar ('P' :: (natToChars (tdDays (if tdDays v < 0 then -v else v)).toNat ++ ['D'])) :=
        ⟨natToChars (tdDays (if tdDays v < 0 then -v else v)).toNat ++ ['D'], [],
          Or.inr ⟨natToChars (tdDays (if tdDays v < 0 then -v else v)).toNat, IsNum_natToChars _, rfl⟩,
          Or.inl rfl, by simp⟩
      refine ⟨'P' :: (natToChars (tdDays (if tdDays v < 0 then -v else v)).toNat ++ ['D']),
        ?_, rfl, hg, SpecDurGrammar_no_year hg⟩
      rw [← hprefix]
      simp [encode_duration, hd, hsle, husle, hnsub2, hsecnn, husnn]

/-- C3 counterexample: the encoding of a negative elapsed time begins with
the sign character, not with P. -/
theorem c3_counterexample :
    (encode_duration (-86400000000)).data.head? = some '-' ∧
    encode_duration (-86400000000) = "-P1D" :=
  ⟨rfl, rfl⟩

/-! ## Claim theorems: date-times -/

/-- C1: every value parse_datetime returns is an unzoned timestamp; it is
the UTC conversion (zone stripped) of the timestamp obtained from the
input — the typed input itself, or the one built from the matched groups
with the resolved zone — and when that timestamp carries no zone its
fields pass through unchanged. -/
theorem c1_parse_datetime_naive_utc (v : TimeInput) (tzl : Option Int) (r : DateTime)
    (h : parse_datetime v tzl = .ok r) :
    r.tz = none ∧ ∃ t, pre_normal v tzl = .ok t ∧ to_utc_naive t = .ok r
      ∧ (t.tz = none → r = t) := by
  rcases hp : pre_normal v tzl with e | t
  · unfold parse_datetime at h
    rw [hp] at h
    cases h
  · unfold parse_datetime at h
    rw [hp] at h
    simp only [] at h
    refine ⟨?_, t, rfl, h, ?_⟩
    · rcases ht : t.tz with _ | off
      · simp only [to_utc_naive, ht] at h
        cases h
        rw [← ht]
      · simp only [to_utc_naive, ht] at h
        split at h
        · split at h
          · cases h
            rfl
          · cases h
        · cases h
    · intro htz
      simp only [to_utc_naive, htz] at h
      exact (Except.ok.inj h).symm

/-- C1 witness: the string "2020-01-01T12:34:56.500000+02" is accepted; the
built timestamp carries the +02:00 zone and normalises to the naive UTC
timestamp 2020-01-01 10:34:56.500000. -/
theorem c1_witness :
    (⟨2020, 1, 1, 10, 34, 56, 500000, none⟩ : DateTime).tz = none ∧
    ∃ t, pre_normal (.str "2020-01-01T12:34:56.500000+02") none = .ok t ∧
      to_utc_naive t = .ok ⟨2020, 1, 1, 10, 34, 56, 500000, none⟩ ∧
      (t.tz = none → (⟨2020, 1, 1, 10, 34, 56, 500000, none⟩ : DateTime) = t) :=
  c1_parse_datetime_naive_utc (.str "2020-01-01T12:34:56.500000+02") none
    ⟨2020, 1, 1, 10, 34, 56, 500000, none⟩ (by rfl)

/-- C4: an explicit signed non-Z offset resolves to a fixed zone whose
offset applies the sign of the hour field to both the hour and the minute
magnitudes (a missing minute field counts as zero); consequently
"2020-01-01T00:00:00-01:30" parses to the naive UTC timestamp
2020-01-01 01:30:00. -/
theorem c4_offset_sign_resolution :
    (∀ (z hd md : List Char) (c : Char) (tzl : Option Int),
        (c = '+' ∨ c = '-') → z ≠ ['Z'] →
        resolve_tzone (some z) (some (c :: hd)) (some md) tzl
            = some ((if c = '-' then -1 else 1)
                * (60 * (natOfDigits hd : Int) + natOfDigits md)) ∧
        resolve_tzone (some z) (some (c :: hd)) none tzl
            = some ((if c = '-' then -1 else 1) * (60 * (natOfDigits hd : Int)))) ∧
    parse_datetime (.str "2020-01-01T00:00:00-01:30") none
        = .ok ⟨2020, 1, 1, 1, 30, 0, 0, none⟩ := by
  constructor
  · intro z hd md c tzl hc hz
    have h0 : natOfDigits ['0'] = 0 := by decide
    constructor
    · simp only [resolve_tzone, if_neg hz]
      rcases hc with rfl | rfl
      · rw [if_neg (by decide : ¬('+' = '-'))]
        rw [show List.take 1 ('+' :: hd) = ['+'] from rfl]
        rw [show (['+'] : List Char) ++ md = '+' :: md from rfl]
        simp only [intOfChars, Option.some.injEq]
        ring
      · rw [if_pos (rfl : '-' = '-')]
        rw [show List.take 1 ('-' :: hd) = ['-'] from rfl]
        rw [show (['-'] : List Char) ++ md = '-' :: md from rfl]
        simp only [intOfChars, Option.some.injEq]
        ring
    · simp only [resolve_tzone, if_neg hz]
      rcases hc with rfl | rfl
      · rw [if_neg (by decide : ¬('+' = '-'))]
        rw [show List.take 1 ('+' :: hd) = ['+'] from rfl]
        rw [show (['+'] : List Char) ++ ['0'] = '+' :: ['0'] from rfl]
        simp only [intOfChars, Option.some.injEq, h0]
        push_cast
        ring
      · rw [if_pos (rfl : '-' = '-')]
        rw [show List.take 1 ('-' :: hd) = ['-'] from rfl]
        rw [show (['-'] : List Char) ++ ['0'] = '-' :: ['0'] from rfl]
        simp only [intOfChars, Option.some.injEq, h0]
        push_cast
        ring
  · rfl

/-- C4 witness: the offset "-01:30" resolves with the minus sign applied to
both components, giving -90 minutes (and -60 minutes when the minute field
is absent). -/
theorem c4_witness :
    (resolve_tzone (some ['-', '0', '1']) (some ('-' :: ['0', '1'])) (some ['3', '0']) none
        = some ((if '-' = '-' then -1 else 1)
            * (60 * (natOfDigits ['0', '1'] : Int) + natOfDigits ['3', '0']))) ∧
    (resolve_tzone (some ['-', '0', '1']) (some ('-' :: ['0', '1'])) none none
        = some ((if '-' = '-' then -1 else 1) * (60 * (natOfDigits ['0', '1'] : Int)))) :=
  c4_offset_sign_resolution.1 ['-', '0', '1'] ['0', '1'] ['3', '0'] '-' none
    (Or.inr rfl) (by decide)

/-- C9: an already-typed date-only value is returned unchanged by
parse_date, and every other input is delegated to parse_datetime (with no
local zone) and reduced to its date component, with errors propagating
unchanged. -/
theorem c9_parse_date_delegation :
    (∀ x : DateOnly, parse_date (.d x) = .ok x) ∧
    (∀ t : DateTime, parse_date (.dt t) = (parse_datetime (.dt t) none).map DateTime.date) ∧
    (∀ s : String, parse_date (.str s) = (parse_datetime (.str s) none).map DateTime.date) ∧
    (∀ (s e : String), parse_datetime (.str s) none = .error e →
        parse_date (.str s) = .error e) := by
  refine ⟨fun x => rfl, fun t => rfl, fun s => rfl, fun s e h => ?_⟩
  show (parse_datetime (.str s) none).map DateTime.date = .error e
  rw [h]
  rfl

/-- C9 witness: a typed date passes through unchanged, and the
malformed-input error of parse_datetime propagates through parse_date. -/
theorem c9_witness :
    parse_date (.d ⟨2019, 5, 1⟩) = .ok ⟨2019, 5, 1⟩ ∧
    parse_date (.str "not-a-date") = .error "Invalid date-time input!" :=
  ⟨c9_parse_date_delegation.1 ⟨2019, 5, 1⟩,
   c9_parse_date_delegation.2.2.2 "not-a-date" "Invalid date-time input!" (by rfl)⟩
